import Mathlib

/-!
Verification of the TCP file-transfer server/client of this repository
(`server.py`, `client.py`) against its specification.

The development shallowly embeds the protocol endpoints:

* The server's storage directory and version-history directory are modelled
  as association lists from path (`String`) to file content (`List Nat`,
  one entry per byte).
* SHA-256 (`hashlib.sha256`) is an external library; every definition is
  parametrised by an arbitrary digest function `sha256 : List Nat → String`.
  A `hashlib` hash object is faithfully represented by the list of bytes fed
  to `update` so far; `hexdigest` applies `sha256` to that list (hashlib
  guarantees exactly this: the digest of the concatenation of the updates).
* Socket receive streams are modelled as the list of bytes the peer has
  written; `recv(n)` yields the next `min n remaining` bytes and an empty
  result once the stream is exhausted (peer closed the connection).
* Wire responses (the JSON dictionaries built by the handlers) are modelled
  by a structure with one optional field per JSON key that the handlers use.
-/

namespace FileTransfer

/-- A directory: an association list from file name (or relative path) to
file content, one `Nat` per byte.  Mirrors the on-disk state the server
manipulates through `os.path.exists`, `open(..., 'wb')`, `os.remove`. -/
abbrev FS := List (String × List Nat)

/-- `os.path.exists` / reading a file: the content stored under a name. -/
def fsLookup : FS → String → Option (List Nat)
  | [], _ => none
  | (k, v) :: rest, name => if k = name then some v else fsLookup rest name

/-- `os.remove`: drop every entry stored under the name. -/
def fsErase : FS → String → FS
  | [], _ => []
  | (k, v) :: rest, name => if k = name then fsErase rest name else (k, v) :: fsErase rest name

/-- `open(path, 'wb')` followed by writing `v`: (re)create the file. -/
def fsInsert (fs : FS) (name : String) (v : List Nat) : FS :=
  (name, v) :: fsErase fs name

theorem fsLookup_insert_self (fs : FS) (k : String) (v : List Nat) :
    fsLookup (fsInsert fs k v) k = some v := by
  simp [fsInsert, fsLookup]

theorem fsLookup_erase (fs : FS) (k k' : String) :
    fsLookup (fsErase fs k) k' = if k' = k then none else fsLookup fs k' := by
  induction fs with
  | nil => simp [fsErase, fsLookup]
  | cons kv rest ih =>
    obtain ⟨a, v⟩ := kv
    simp only [fsErase, fsLookup]
    split_ifs with h1 h2 h3 h3 <;> simp_all [fsLookup]

theorem fsLookup_erase_self (fs : FS) (k : String) :
    fsLookup (fsErase fs k) k = none := by
  simp [fsLookup_erase]

theorem fsLookup_insert (fs : FS) (k k' : String) (v : List Nat) :
    fsLookup (fsInsert fs k v) k' =
      if k' = k then some v else fsLookup fs k' := by
  by_cases h : k' = k
  · subst h; simp [fsLookup_insert_self]
  · simp [fsInsert, fsLookup, fsLookup_erase, h, Ne.symm h]

theorem fsLookup_mem {fs : FS} {k : String} {v : List Nat}
    (h : fsLookup fs k = some v) : (k, v) ∈ fs := by
  induction fs with
  | nil => simp [fsLookup] at h
  | cons kv rest ih =>
    obtain ⟨a, w⟩ := kv
    by_cases hk : a = k
    · simp only [fsLookup, if_pos hk, Option.some.injEq] at h
      subst hk; subst h
      exact List.mem_cons_self _ _
    · simp only [fsLookup, if_neg hk] at h
      exact List.mem_cons_of_mem _ (ih h)

/-! ### Decimal rendering

Python renders the probe counter with `f"{name}_v{counter}{ext}"`, i.e. the
usual decimal digits of the counter.  `decimal` is that rendering. -/

/-- The decimal digits of `n`, least significant first (empty for `0`). -/
def digitsLE : Nat → List Nat
  | 0 => []
  | n + 1 => (n + 1) % 10 :: digitsLE ((n + 1) / 10)
decreasing_by exact Nat.div_lt_self (Nat.succ_pos n) (by omega)

/-- Value of a least-significant-first digit list. -/
def valLE : List Nat → Nat
  | [] => 0
  | d :: ds => d + 10 * valLE ds

theorem valLE_digitsLE (n : Nat) : valLE (digitsLE n) = n := by
  induction n using Nat.strong_induction_on with
  | _ n ih =>
    match n with
    | 0 => simp [digitsLE, valLE]
    | n + 1 =>
      rw [digitsLE, valLE, ih ((n + 1) / 10) (Nat.div_lt_self (Nat.succ_pos n) (by omega))]
      omega

theorem digitsLE_lt_ten {n : Nat} : ∀ d ∈ digitsLE n, d < 10 := by
  induction n using Nat.strong_induction_on with
  | _ n ih =>
    match n with
    | 0 => simp [digitsLE]
    | n + 1 =>
      rw [digitsLE]
      intro d hd
      rcases List.mem_cons.mp hd with h | h
      · subst h; exact Nat.mod_lt _ (by omega)
      · exact ih ((n + 1) / 10) (Nat.div_lt_self (Nat.succ_pos n) (by omega)) d h

theorem lt_ten_pow_length_digitsLE (n : Nat) : n < 10 ^ (digitsLE n).length := by
  induction n using Nat.strong_induction_on with
  | _ n ih =>
    match n with
    | 0 => simp [digitsLE]
    | n + 1 =>
      rw [digitsLE]
      have h := ih ((n + 1) / 10) (Nat.div_lt_self (Nat.succ_pos n) (by omega))
      simp only [List.length_cons, pow_succ]
      omega

/-- A decimal digit as a character (`'0'`–`'9'`). -/
def digitChar (d : Nat) : Char := Char.ofNat (48 + d)

/-- The decimal rendering of a natural number, as Python's `str` writes it. -/
def decimal (n : Nat) : String :=
  if n = 0 then "0" else ⟨((digitsLE n).reverse.map digitChar)⟩

/-- The inverse of `digitChar` on decimal digits. -/
def charDigit (c : Char) : Nat := c.toNat - 48

/-- Reading a decimal string back into a number (only used in proofs, as the
left inverse witnessing that `decimal` is injective). -/
def parseDecimal (s : String) : Nat := valLE (s.data.reverse.map charDigit)

theorem charDigit_digitChar {d : Nat} (hd : d < 10) : charDigit (digitChar d) = d := by
  interval_cases d <;> decide

theorem parseDecimal_decimal (n : Nat) : parseDecimal (decimal n) = n := by
  by_cases hn : n = 0
  · subst hn; rfl
  · rw [decimal, if_neg hn]
    show valLE ((((digitsLE n).reverse.map digitChar)).reverse.map charDigit) = n
    have hrev : (((digitsLE n).reverse.map digitChar)).reverse = (digitsLE n).map digitChar := by
      simp
    rw [hrev, List.map_map]
    have hcongr : ∀ d ∈ digitsLE n, (charDigit ∘ digitChar) d = d := fun d hd =>
      charDigit_digitChar (digitsLE_lt_ten d hd)
    rw [List.map_congr_left hcongr]
    simpa using valLE_digitsLE n

theorem decimal_injective : Function.Injective decimal :=
  Function.LeftInverse.injective parseDecimal_decimal

theorem decimal_length_gt {L n : Nat} (h : 10 ^ L ≤ n) : L < (decimal n).length := by
  have hpow : (1 : Nat) ≤ 10 ^ L := Nat.one_le_pow _ _ (by omega)
  have hn : n ≠ 0 := by omega
  rw [decimal, if_neg hn]
  have hlen : (String.mk ((digitsLE n).reverse.map digitChar)).length = (digitsLE n).length := by
    simp [String.length]
  rw [hlen]
  by_contra hc
  push_neg at hc
  have h1 := lt_ten_pow_length_digitsLE n
  have h2 : (10 : Nat) ^ (digitsLE n).length ≤ 10 ^ L := Nat.pow_le_pow_right (by omega) hc
  omega

/-! ### `os.path.splitext`

`name, ext = os.path.splitext(filename)`: split at the last dot, unless the
basename consists only of dots up to that position (CPython `posixpath.splitext`). -/

/-- Index of the last occurrence of `c` in `l` (Python `str.rfind`, with
`none` for "not found"). -/
def lastIdxOf (c : Char) : List Char → Option Nat
  | [] => none
  | a :: as =>
    match lastIdxOf c as with
    | some i => some (i + 1)
    | none => if a = c then some 0 else none

/-- `os.path.splitext`. -/
def splitext (p : String) : String × String :=
  let l := p.data
  match lastIdxOf '.' l with
  | none => (p, "")
  | some d =>
    let fi : Nat := match lastIdxOf '/' l with | none => 0 | some i => i + 1
    let sepOk : Bool := match lastIdxOf '/' l with | none => true | some i => decide (i < d)
    if sepOk ∧ ((l.drop fi).take (d - fi)).any (fun c => c != '.') then
      (⟨l.take d⟩, ⟨l.drop d⟩)
    else (p, "")

/-! ### Duplicate resolution (`FileServer.check_file_exists`) -/

/-- The rename-mode candidate `f"{name}_v{counter}{ext}"`. -/
def vname (name ext : String) (counter : Nat) : String :=
  name ++ "_v" ++ decimal counter ++ ext

theorem middle_append_inj {a b s t : String} (h : a ++ s ++ b = a ++ t ++ b) : s = t := by
  have hd : a.data ++ (s.data ++ b.data) = a.data ++ (t.data ++ b.data) := by
    have := congrArg String.data h
    simpa [String.data_append, List.append_assoc] using this
  have h1 : s.data ++ b.data = t.data ++ b.data := List.append_cancel_left hd
  have h2 : s.data = t.data := List.append_cancel_right h1
  cases s; cases t; exact congrArg String.mk h2

theorem vname_injective (name ext : String) : Function.Injective (vname name ext) := by
  intro c1 c2 h
  have h' : (name ++ "_v") ++ decimal c1 ++ ext = (name ++ "_v") ++ decimal c2 ++ ext := by
    simpa [vname, String.append_assoc] using h
  exact decimal_injective (middle_append_inj h')

/-- The largest key length in a directory listing. -/
def maxKeyLen (fs : FS) : Nat := fs.foldr (fun kv m => max kv.1.length m) 0

theorem length_le_maxKeyLen {fs : FS} {kv : String × List Nat} (h : kv ∈ fs) :
    kv.1.length ≤ maxKeyLen fs := by
  induction fs with
  | nil => simp at h
  | cons a rest ih =>
    rcases List.mem_cons.mp h with h | h
    · subst h; simp [maxKeyLen]
    · simp only [maxKeyLen, List.foldr] at *
      exact le_trans (ih h) (le_max_right _ _)

/-- `while True` in rename mode walks `counter = 2, 3, …`; it terminates because
candidate names eventually grow longer than every name in the (finite) directory.
This is the existence fact backing `Nat.find` below. -/
theorem rename_candidate_exists (fs : FS) (name ext : String) :
    ∃ c, 2 ≤ c ∧ fsLookup fs (vname name ext c) = none := by
  refine ⟨10 ^ (maxKeyLen fs + 1), ?_, ?_⟩
  · calc (2 : Nat) ≤ 10 ^ 1 := by omega
    _ ≤ 10 ^ (maxKeyLen fs + 1) := Nat.pow_le_pow_right (by omega) (by omega)
  · by_contra hc
    obtain ⟨v, hv⟩ := Option.ne_none_iff_exists'.mp hc
    have hmem := fsLookup_mem hv
    have hle : (vname name ext (10 ^ (maxKeyLen fs + 1))).length ≤ maxKeyLen fs :=
      length_le_maxKeyLen hmem
    have hgt : maxKeyLen fs + 1 < (decimal (10 ^ (maxKeyLen fs + 1))).length :=
      decimal_length_gt (le_refl _)
    have h2v : ("_v" : String).length = 2 := rfl
    have hlen : (vname name ext (10 ^ (maxKeyLen fs + 1))).length =
        name.length + 2 + (decimal (10 ^ (maxKeyLen fs + 1))).length + ext.length := by
      simp [vname, String.length_append, h2v]
    omega

/-- The counter the rename probe loop stops at: the first `c ≥ 2` whose
candidate name is unused.  (`check_file_exists` starts at `counter = 2`
and increments until `os.path.exists` fails.) -/
def renameCounter (fs : FS) (name ext : String) : Nat :=
  Nat.find (rename_candidate_exists fs name ext)

/-- `FileServer.check_file_exists(filename, handling_mode)`:
returns `(new_filename, is_duplicate)`. -/
def check_file_exists (fs : FS) (filename : String) (handling_mode : String) :
    String × Bool :=
  if fsLookup fs filename = none then (filename, false)
  else if handling_mode = "overwrite" then (filename, true)
  else if handling_mode = "rename" then
    let ne := splitext filename
    (vname ne.1 ne.2 (renameCounter fs ne.1 ne.2), true)
  else if handling_mode = "versioning" then (filename, true)
  else (filename, false)

/-! ### Wire messages

The JSON dictionaries the endpoints exchange.  `Response` has one optional
field per JSON key any server handler ever emits; a field is `none` when the
handler's dictionary does not carry that key. -/

/-- One entry of a `LIST` response's per-file `versions` array (modification
times are not modelled). -/
structure VersionInfo where
  filename : String
  size : Nat
  deriving DecidableEq, Repr

/-- One entry of a `LIST` response's `files` array. -/
structure FileInfo where
  filename : String
  size : Nat
  versions : List VersionInfo
  deriving DecidableEq, Repr

/-- A JSON response dictionary sent by the server. -/
structure Response where
  status : String
  message : Option String := none
  filename : Option String := none
  is_duplicate : Option Bool := none
  handling_mode : Option String := none
  hash : Option String := none
  expected_hash : Option String := none
  received_hash : Option String := none
  filesize : Option Nat := none
  resuming_from : Option Nat := none
  files : Option (List FileInfo) := none
  deriving DecidableEq, Repr

/-- An `UPLOAD` request's metadata fields (each may be absent). -/
structure UploadRequest where
  filename : Option String := none
  filesize : Option Nat := none
  hash : Option String := none
  handling_mode : Option String := none
  deriving DecidableEq, Repr

/-- A `DOWNLOAD` request; `request.get('resume_offset', 0)` defaults to `0`. -/
structure DownloadRequest where
  filename : String
  resume_offset : Nat := 0
  deriving DecidableEq, Repr

/-- Python truthiness of an optional string: absent and `""` are falsy
(`if not all([filename, filesize, file_hash])`). -/
def truthyStr : Option String → Bool
  | none => false
  | some s => s != ""

/-- Python truthiness of an optional number: absent and `0` are falsy. -/
def truthyNat : Option Nat → Bool
  | none => false
  | some n => n != 0

/-- The server's on-disk state: the storage directory's files and the
version-history tree (keys `name/versioned_name` relative to the
`version_history` root). -/
structure ServerState where
  storage : FS
  versions : FS
  deriving DecidableEq, Repr

/-! ### Byte streaming loops -/

/-- The upload receive loop: `while received < filesize` receive
`recv(min(4096, filesize - received))`; an empty chunk means the peer closed
the connection mid-transfer (`none`).  `stream` is everything the peer wrote. -/
def recvBytes : List Nat → Nat → Option (List Nat)
  | _, 0 => some []
  | [], _ + 1 => none
  | a :: as, r + 1 =>
    match recvBytes ((a :: as).drop (min 4096 (r + 1)))
        (r + 1 - ((a :: as).take (min 4096 (r + 1))).length) with
    | none => none
    | some rest => some ((a :: as).take (min 4096 (r + 1)) ++ rest)
termination_by _ r => r
decreasing_by simp [List.length_take]

/-- `_calculate_file_hash`'s read loop: `f.read(4096)` until empty, feeding
each chunk to the hash object; the result is the byte sequence hashed. -/
def readChunks : List Nat → List Nat
  | [] => []
  | a :: as => (a :: as).take 4096 ++ readChunks ((a :: as).drop 4096)
termination_by l => l.length
decreasing_by simp; omega

/-- `FileServer._calculate_file_hash`: SHA-256 of a file read in 4096-byte
chunks. -/
def calculate_file_hash (sha256 : List Nat → String) (content : List Nat) : String :=
  sha256 (readChunks content)

/-- The download send loop: `while bytes_sent < remaining_bytes` send
`f.read(min(4096, remaining_bytes - bytes_sent))`, stopping early at end of
file.  The argument is the file content after the seek; the result is the
byte sequence pushed through `sendall`. -/
def sendBytes : List Nat → Nat → List Nat
  | _, 0 => []
  | [], _ + 1 => []
  | a :: as, r + 1 =>
    (a :: as).take (min 4096 (r + 1)) ++
      sendBytes ((a :: as).drop (min 4096 (r + 1)))
        (r + 1 - ((a :: as).take (min 4096 (r + 1))).length)
termination_by _ r => r
decreasing_by simp [List.length_take]

/-! ### Server handlers -/

/-- `FileServer.archive_existing_file(filename)`: copy the current content of
`filename` into the per-base-name version subdirectory under a timestamped
name; a non-existent source is a no-op.  The wall-clock timestamp string is a
parameter. -/
def archive_existing_file (st : ServerState) (filename timestamp : String) : ServerState :=
  match fsLookup st.storage filename with
  | none => st
  | some content =>
    let ne := splitext filename
    let versioned_name := ne.1 ++ "_" ++ timestamp ++ ne.2
    { st with versions := fsInsert st.versions (ne.1 ++ "/" ++ versioned_name) content }

/-- `FileServer.handle_upload`: validates the metadata, resolves duplicates,
archives under versioning, receives the byte stream, verifies the digest.
Returns the new server state and the responses sent, in order. -/
def handle_upload (sha256 : List Nat → String) (st : ServerState) (req : UploadRequest)
    (stream : List Nat) (timestamp : String) : ServerState × List Response :=
  if !(truthyStr req.filename && truthyNat req.filesize && truthyStr req.hash) then
    (st, [{ status := "error", message := some "Missing required information" }])
  else
    let filename := req.filename.getD ""
    let filesize := req.filesize.getD 0
    let file_hash := req.hash.getD ""
    let handling_mode := req.handling_mode.getD "overwrite"
    let cr := check_file_exists st.storage filename handling_mode
    let st1 := if cr.2 ∧ handling_mode = "versioning"
      then archive_existing_file st filename timestamp else st
    let ready : Response :=
      { status := "ready", filename := some cr.1,
        is_duplicate := some cr.2, handling_mode := some handling_mode }
    match recvBytes stream filesize with
    | none =>
      (⟨fsErase st1.storage cr.1, st1.versions⟩,
        [ready,
          { status := "error",
            message := some "File transfer error: Connection closed during file transfer" }])
    | some received =>
      let calculated_hash := sha256 received
      if calculated_hash = file_hash then
        (⟨fsInsert st1.storage cr.1 received, st1.versions⟩,
          [ready,
            { status := "success",
              message := some ("File " ++ cr.1 ++ " uploaded successfully"),
              hash := some calculated_hash }])
      else
        (⟨fsErase st1.storage cr.1, st1.versions⟩,
          [ready,
            { status := "error", message := some "File corruption detected",
              expected_hash := some file_hash, received_hash := some calculated_hash }])

/-- `FileServer.handle_download_request`: looks the file up, validates the
resume offset (only when it is positive), hashes the whole file, sends the
ready response and — once the client acknowledges readiness — streams
`filesize − resume_offset` bytes from the seek position.  Returns the
responses sent and the raw bytes streamed. -/
def handle_download_request (sha256 : List Nat → String) (storage : FS)
    (req : DownloadRequest) (clientReady : Bool) : List Response × List Nat :=
  match fsLookup storage req.filename with
  | none =>
    ([{ status := "error", message := some ("File not found: " ++ req.filename) }], [])
  | some content =>
    let filesize := content.length
    if req.resume_offset > 0 ∧ filesize ≤ req.resume_offset then
      ([{ status := "error",
          message := some ("Invalid resume offset: " ++ decimal req.resume_offset) }], [])
    else
      let ready : Response :=
        { status := "ready", filesize := some filesize,
          hash := some (calculate_file_hash sha256 content),
          resuming_from := some req.resume_offset }
      if clientReady then
        ([ready], sendBytes (content.drop req.resume_offset) (filesize - req.resume_offset))
      else
        ([ready], [])

/-- `str.startswith` on the underlying characters. -/
def strStartsWith (s pre : String) : Bool := pre.data.isPrefixOf s.data

/-- `str.endswith` on the underlying characters. -/
def strEndsWith (s suf : String) : Bool := suf.data.reverse.isPrefixOf s.data.reverse

/-- Insertion into a list sorted by `filename` descending. -/
def insertDesc (x : VersionInfo) : List VersionInfo → List VersionInfo
  | [] => [x]
  | y :: ys => if y.filename < x.filename then x :: y :: ys else y :: insertDesc x ys

/-- `versions.sort(key=..., reverse=True)`: sort by `filename` descending. -/
def sortDesc : List VersionInfo → List VersionInfo
  | [] => []
  | x :: xs => insertDesc x (sortDesc xs)

/-- `FileServer.get_version_history(filename)`: the archived copies in the
file's per-base-name subdirectory whose names start with the base name and
end with the extension, newest (largest timestamped name) first. -/
def get_version_history (versions : FS) (filename : String) : List VersionInfo :=
  let ne := splitext filename
  let inDir := versions.filterMap (fun kv =>
    if strStartsWith kv.1 (ne.1 ++ "/") then
      some ((⟨kv.1.data.drop (ne.1.length + 1)⟩, kv.2.length) : String × Nat)
    else none)
  let matching := inDir.filter (fun kv =>
    strStartsWith kv.1 ne.1 && strEndsWith kv.1 ne.2)
  sortDesc (matching.map (fun kv => { filename := kv.1, size := kv.2 }))

/-- `FileServer.handle_list`: one success response listing every stored file
with its size and version history. -/
def handle_list (st : ServerState) : Response :=
  { status := "success",
    files := some (st.storage.map (fun kv =>
      { filename := kv.1, size := kv.2.length,
        versions := get_version_history st.versions kv.1 })) }

/-! ### Properties of the streaming loops -/

theorem readChunks_eq (l : List Nat) : readChunks l = l := by
  induction l using readChunks.induct with
  | case1 => rw [readChunks]
  | case2 a as ih =>
    rw [readChunks, ih]
    exact List.take_append_drop _ _

theorem sendBytes_nil (r : Nat) : sendBytes [] r = [] := by
  cases r <;> rw [sendBytes]

/-- The download send loop pushes exactly the first `r` bytes after the seek
position (all of them when the file tail has no more than `r` bytes). -/
theorem sendBytes_eq (l : List Nat) (r : Nat) : sendBytes l r = l.take r := by
  induction l, r using sendBytes.induct with
  | case1 l => rw [sendBytes]; simp
  | case2 r => rw [sendBytes]; simp
  | case3 a as r ih =>
    rw [sendBytes]
    by_cases h : (a :: as).length ≤ min 4096 (r + 1)
    · have htake : (a :: as).take (min 4096 (r + 1)) = a :: as := List.take_of_length_le h
      have hdrop : (a :: as).drop (min 4096 (r + 1)) = [] := List.drop_eq_nil_of_le h
      rw [htake, hdrop, sendBytes_nil, List.append_nil]
      exact (List.take_of_length_le (le_trans h (Nat.min_le_right _ _))).symm
    · push_neg at h
      have hlen : ((a :: as).take (min 4096 (r + 1))).length = min 4096 (r + 1) := by
        rw [List.length_take]; omega
      rw [hlen] at ih ⊢
      have hsum : min 4096 (r + 1) + (r + 1 - min 4096 (r + 1)) = r + 1 := by
        have := Nat.min_le_right 4096 (r + 1); omega
      rw [ih, ← List.take_add, hsum]

/-- The upload receive loop collects exactly `r` bytes when the peer wrote at
least that many. -/
theorem recvBytes_of_le : ∀ (r : Nat) (s : List Nat), r ≤ s.length →
    recvBytes s r = some (s.take r) := by
  intro r
  induction r using Nat.strong_induction_on with
  | _ r ih =>
    intro s h
    cases r with
    | zero => rw [recvBytes]; simp
    | succ r =>
      cases s with
      | nil => simp at h
      | cons a as =>
        simp only [List.length_cons] at h
        rw [recvBytes]
        have hk1 : min 4096 (r + 1) ≤ r + 1 := Nat.min_le_right _ _
        have hlen : ((a :: as).take (min 4096 (r + 1))).length = min 4096 (r + 1) := by
          rw [List.length_take]; simp only [List.length_cons]; omega
        have hrec := ih (r + 1 - ((a :: as).take (min 4096 (r + 1))).length)
          (by rw [hlen]; omega) ((a :: as).drop (min 4096 (r + 1)))
          (by rw [hlen, List.length_drop]; simp only [List.length_cons]; omega)
        rw [hrec]
        show some ((a :: as).take (min 4096 (r + 1)) ++
            ((a :: as).drop (min 4096 (r + 1))).take
              (r + 1 - ((a :: as).take (min 4096 (r + 1))).length)) =
          some ((a :: as).take (r + 1))
        rw [hlen]
        have hsum : min 4096 (r + 1) + (r + 1 - min 4096 (r + 1)) = r + 1 := by omega
        rw [← List.take_add, hsum]

/-- The upload receive loop reports a closed connection when the peer wrote
fewer bytes than the declared size. -/
theorem recvBytes_of_gt : ∀ (r : Nat) (s : List Nat), s.length < r →
    recvBytes s r = none := by
  intro r
  induction r using Nat.strong_induction_on with
  | _ r ih =>
    intro s h
    cases r with
    | zero => exact absurd h (Nat.not_lt_zero _)
    | succ r =>
      cases s with
      | nil => rw [recvBytes]
      | cons a as =>
        simp only [List.length_cons] at h
        rw [recvBytes]
        have hk1 : min 4096 (r + 1) ≤ r + 1 := Nat.min_le_right _ _
        have hlen : ((a :: as).take (min 4096 (r + 1))).length =
            min (min 4096 (r + 1)) (as.length + 1) := by
          rw [List.length_take]; simp
        have hrec := ih (r + 1 - ((a :: as).take (min 4096 (r + 1))).length)
          (by rw [hlen]; omega) ((a :: as).drop (min 4096 (r + 1)))
          (by rw [hlen, List.length_drop]; simp only [List.length_cons]; omega)
        rw [hrec]

/-! ### The rename probe finds the first unused candidate -/

theorem renameCounter_spec (fs : FS) (name ext : String) :
    2 ≤ renameCounter fs name ext ∧
    fsLookup fs (vname name ext (renameCounter fs name ext)) = none ∧
    ∀ j, 2 ≤ j → j < renameCounter fs name ext → fsLookup fs (vname name ext j) ≠ none := by
  refine ⟨(Nat.find_spec (rename_candidate_exists fs name ext)).1,
    (Nat.find_spec (rename_candidate_exists fs name ext)).2, ?_⟩
  intro j h2 hlt hnone
  exact (Nat.find_min (rename_candidate_exists fs name ext) hlt) ⟨h2, hnone⟩

theorem le_renameCounter {fs : FS} {name ext : String} {m : Nat}
    (h : ∀ j, 2 ≤ j → j < m → fsLookup fs (vname name ext j) ≠ none) :
    m ≤ renameCounter fs name ext := by
  by_contra hc
  push_neg at hc
  obtain ⟨h2, hfree, -⟩ := renameCounter_spec fs name ext
  exact h _ h2 hc hfree

/-! ### Version counting -/

/-- A string prefix test on the underlying characters, and the number of
archived files inside a base name's version subdirectory. -/
def versionCount (vs : FS) (name : String) : Nat :=
  (vs.filter (fun kv => strStartsWith kv.1 (name ++ "/"))).length

theorem strStartsWith_append (a b : String) : strStartsWith (a ++ b) a = true := by
  rw [strStartsWith, List.isPrefixOf_iff_prefix, String.data_append]
  exact List.prefix_append _ _

theorem fsErase_of_lookup_none {fs : FS} {k : String} (h : fsLookup fs k = none) :
    fsErase fs k = fs := by
  induction fs with
  | nil => rfl
  | cons kv rest ih =>
    obtain ⟨a, v⟩ := kv
    by_cases hk : a = k
    · simp [fsLookup, hk] at h
    · simp only [fsLookup, if_neg hk] at h
      simp [fsErase, hk, ih h]

theorem versionCount_insert_fresh {vs : FS} {k : String} {v : List Nat} {name : String}
    (hfresh : fsLookup vs k = none) (hpre : strStartsWith k (name ++ "/") = true) :
    versionCount (fsInsert vs k v) name = versionCount vs name + 1 := by
  rw [versionCount, fsInsert, fsErase_of_lookup_none hfresh]
  simp [versionCount, List.filter, hpre]

theorem versionCount_zero_lookup {vs : FS} {name : String}
    (h : versionCount vs name = 0) (s : String) :
    fsLookup vs (name ++ "/" ++ s) = none := by
  by_contra hc
  obtain ⟨v, hv⟩ := Option.ne_none_iff_exists'.mp hc
  have hmem := fsLookup_mem hv
  have hpre : strStartsWith (name ++ "/" ++ s) (name ++ "/") = true :=
    strStartsWith_append (name ++ "/") s
  have : (name ++ "/" ++ s, v) ∈ vs.filter (fun kv => strStartsWith kv.1 (name ++ "/")) :=
    List.mem_filter.mpr ⟨hmem, hpre⟩
  rw [versionCount] at h
  rw [List.length_eq_zero] at h
  simp [h] at this

/-! ### The per-connection request loop (`FileServer.handle_client`) -/

/-- One event on the server's receive side of a connection, as seen by the
request loop: an orderly close (empty read), a read timeout, a socket error,
an undecodable request, or a decoded request.  A decoded transfer request
carries the further socket input its handler consumes (the upload byte
stream, or the download readiness acknowledgment). -/
inductive Incoming where
  | closed
  | timeout
  | sockError
  | malformed
  | upload (r : UploadRequest) (stream : List Nat) (timestamp : String)
  | download (r : DownloadRequest) (ready : Bool)
  | list
  | unknown (cmd : Option String)
  deriving DecidableEq, Repr

/-- `FileServer.handle_client`: the per-connection loop.  Returns the final
server state and every JSON response sent on the connection, in order.  The
loop stops (and the connection is closed in the `finally` block) on an empty
read, a read timeout or a socket error; malformed and unknown requests get an
error response and the loop continues. -/
def handle_client (sha256 : List Nat → String) :
    ServerState → List Incoming → ServerState × List Response
  | st, [] => (st, [])
  | st, ev :: rest =>
    match ev with
    | .closed => (st, [])
    | .timeout => (st, [])
    | .sockError => (st, [])
    | .malformed =>
      let r := handle_client sha256 st rest
      (r.1, { status := "error", message := some "Invalid request format" } :: r.2)
    | .unknown _ =>
      let r := handle_client sha256 st rest
      (r.1, { status := "error", message := some "Invalid command" } :: r.2)
    | .upload ur stream ts =>
      let u := handle_upload sha256 st ur stream ts
      let r := handle_client sha256 u.1 rest
      (r.1, u.2 ++ r.2)
    | .download dr rdy =>
      let d := handle_download_request sha256 st.storage dr rdy
      let r := handle_client sha256 st rest
      (r.1, d.1 ++ r.2)
    | .list =>
      let r := handle_client sha256 st rest
      (r.1, handle_list st :: r.2)

/-! ### Computation lemmas for whole-upload runs -/

/-- An upload whose stream carries exactly the declared bytes and whose
declared digest matches: the handler stores the received bytes under the
resolved name and answers ready-then-success. -/
theorem handle_upload_success (sha256 : List Nat → String) (st : ServerState)
    (fn mode ts : String) (C : List Nat)
    (hfn : fn ≠ "") (hC : C ≠ []) (hsha : sha256 C ≠ "") :
    handle_upload sha256 st ⟨some fn, some C.length, some (sha256 C), some mode⟩ C ts =
      (⟨fsInsert (if (check_file_exists st.storage fn mode).2 ∧ mode = "versioning"
            then archive_existing_file st fn ts else st).storage
          (check_file_exists st.storage fn mode).1 C,
        (if (check_file_exists st.storage fn mode).2 ∧ mode = "versioning"
            then archive_existing_file st fn ts else st).versions⟩,
       [{ status := "ready", filename := some (check_file_exists st.storage fn mode).1,
          is_duplicate := some (check_file_exists st.storage fn mode).2,
          handling_mode := some mode },
        { status := "success",
          message := some ("File " ++ (check_file_exists st.storage fn mode).1 ++
            " uploaded successfully"),
          hash := some (sha256 C) }]) := by
  have hlen : C.length ≠ 0 := fun h0 => hC (List.length_eq_zero.mp h0)
  have hrecv : recvBytes C C.length = some C := by
    rw [recvBytes_of_le C.length C (le_refl _), List.take_length]
  simp [handle_upload, truthyStr, truthyNat, hfn, hsha, hlen, hrecv]

/-- An upload that receives all declared bytes but whose computed digest
differs from the declared one: the written file is removed and the error
response carries both digests. -/
theorem handle_upload_corruption (sha256 : List Nat → String) (st : ServerState)
    (fn mode ts declared : String) (stream : List Nat) (filesize : Nat)
    (hfn : fn ≠ "") (hfs : filesize ≠ 0) (hdecl : declared ≠ "")
    (hlen : filesize ≤ stream.length)
    (hmis : sha256 (stream.take filesize) ≠ declared) :
    handle_upload sha256 st ⟨some fn, some filesize, some declared, some mode⟩ stream ts =
      (⟨fsErase (if (check_file_exists st.storage fn mode).2 ∧ mode = "versioning"
            then archive_existing_file st fn ts else st).storage
          (check_file_exists st.storage fn mode).1,
        (if (check_file_exists st.storage fn mode).2 ∧ mode = "versioning"
            then archive_existing_file st fn ts else st).versions⟩,
       [{ status := "ready", filename := some (check_file_exists st.storage fn mode).1,
          is_duplicate := some (check_file_exists st.storage fn mode).2,
          handling_mode := some mode },
        { status := "error", message := some "File corruption detected",
          expected_hash := some declared,
          received_hash := some (sha256 (stream.take filesize)) }]) := by
  have hrecv : recvBytes stream filesize = some (stream.take filesize) :=
    recvBytes_of_le filesize stream hlen
  simp [handle_upload, truthyStr, truthyNat, hfn, hdecl, hfs, hrecv, hmis]

theorem archive_storage_eq (st : ServerState) (fn ts : String) :
    (archive_existing_file st fn ts).storage = st.storage := by
  cases h : fsLookup st.storage fn <;> simp [archive_existing_file, h]

theorem archive_of_lookup_none {st : ServerState} {fn : String} (ts : String)
    (h : fsLookup st.storage fn = none) : archive_existing_file st fn ts = st := by
  simp [archive_existing_file, h]

theorem archive_of_lookup_some {st : ServerState} {fn : String} {old : List Nat} (ts : String)
    (h : fsLookup st.storage fn = some old) :
    archive_existing_file st fn ts =
      ⟨st.storage, fsInsert st.versions
        ((splitext fn).1 ++ "/" ++ ((splitext fn).1 ++ "_" ++ ts ++ (splitext fn).2)) old⟩ := by
  simp [archive_existing_file, h]

/-! ### Claim C9 -/

/-- C9: an `UPLOAD` request whose `filesize` is `0`, or whose `filename` or
`hash` is the empty string, fails the truthiness-based presence check
(`if not all([filename, filesize, file_hash])`): the server answers the
`Missing required information` error and no file is created (the state is
unchanged) — so a zero-byte file can never be uploaded through the protocol. -/
theorem upload_zero_or_empty_rejected (sha256 : List Nat → String) (st : ServerState)
    (req : UploadRequest) (stream : List Nat) (ts : String)
    (h : req.filesize = some 0 ∨ req.filename = some "" ∨ req.hash = some "") :
    handle_upload sha256 st req stream ts =
      (st, [{ status := "error", message := some "Missing required information" }]) := by
  rcases h with h | h | h <;> simp [handle_upload, truthyStr, truthyNat, h]

/-- Witness for C9: a zero-size upload request is rejected with the state
unchanged. -/
theorem upload_zero_or_empty_rejected_witness :
    ((⟨some "a.txt", some 0, some "h", none⟩ : UploadRequest).filesize = some 0 ∨
      (⟨some "a.txt", some 0, some "h", none⟩ : UploadRequest).filename = some "" ∨
      (⟨some "a.txt", some 0, some "h", none⟩ : UploadRequest).hash = some "") ∧
    handle_upload (fun _ => "h") ⟨[], []⟩ ⟨some "a.txt", some 0, some "h", none⟩ [] "" =
      (⟨[], []⟩, [{ status := "error", message := some "Missing required information" }]) :=
  ⟨Or.inl rfl,
    upload_zero_or_empty_rejected (fun _ => "h") ⟨[], []⟩ ⟨some "a.txt", some 0, some "h", none⟩
      [] "" (Or.inl rfl)⟩

/-! ### Claim C10 -/

/-- C10: an `UPLOAD` whose `handling_mode` is present but not `overwrite`,
`rename` or `versioning`, while the target filename exists, falls through
`check_file_exists` to `(filename, False)`: the existing file is silently
overwritten under its original name, no archive is made (the version tree is
unchanged), and the ready response reports `is_duplicate = False`. -/
theorem invalid_mode_silently_overwrites (sha256 : List Nat → String) (st : ServerState)
    (fn mode ts : String) (C old : List Nat)
    (hm1 : mode ≠ "overwrite") (hm2 : mode ≠ "rename") (hm3 : mode ≠ "versioning")
    (hex : fsLookup st.storage fn = some old)
    (hfn : fn ≠ "") (hC : C ≠ []) (hsha : sha256 C ≠ "") :
    check_file_exists st.storage fn mode = (fn, false) ∧
    handle_upload sha256 st ⟨some fn, some C.length, some (sha256 C), some mode⟩ C ts =
      (⟨fsInsert st.storage fn C, st.versions⟩,
       [{ status := "ready", filename := some fn, is_duplicate := some false,
          handling_mode := some mode },
        { status := "success", message := some ("File " ++ fn ++ " uploaded successfully"),
          hash := some (sha256 C) }]) := by
  have hcfe : check_file_exists st.storage fn mode = (fn, false) := by
    simp [check_file_exists, hex, hm1, hm2, hm3]
  refine ⟨hcfe, ?_⟩
  rw [handle_upload_success sha256 st fn mode ts C hfn hC hsha]
  simp [hcfe]

/-- Witness for C10: mode `"bogus"` on an existing `a.txt` overwrites it and
reports `is_duplicate = False`. -/
theorem invalid_mode_silently_overwrites_witness :
    (("bogus" : String) ≠ "overwrite" ∧ ("bogus" : String) ≠ "rename" ∧
      ("bogus" : String) ≠ "versioning" ∧
      fsLookup [("a.txt", [1])] "a.txt" = some [1] ∧ ("a.txt" : String) ≠ "" ∧
      ([2] : List Nat) ≠ [] ∧ (fun _ : List Nat => "d") [2] ≠ "") ∧
    (check_file_exists [("a.txt", [1])] "a.txt" "bogus" = ("a.txt", false) ∧
     handle_upload (fun _ => "d") ⟨[("a.txt", [1])], []⟩
        ⟨some "a.txt", some ([2] : List Nat).length, some ((fun _ : List Nat => "d") [2]),
          some "bogus"⟩ [2] "ts" =
      (⟨fsInsert [("a.txt", [1])] "a.txt" [2], []⟩,
       [{ status := "ready", filename := some "a.txt", is_duplicate := some false,
          handling_mode := some "bogus" },
        { status := "success",
          message := some ("File " ++ "a.txt" ++ " uploaded successfully"),
          hash := some ((fun _ : List Nat => "d") [2]) }])) :=
  ⟨by refine ⟨by decide, by decide, by decide, by decide, by decide, by decide, by decide⟩,
    invalid_mode_silently_overwrites (fun _ => "d") ⟨[("a.txt", [1])], []⟩ "a.txt" "bogus" "ts"
      [2] [1] (by decide) (by decide) (by decide) (by decide) (by decide) (by decide) (by decide)⟩

/-! ### Claim C2 -/

/-- C2: when the full declared number of bytes is received but the digest the
server computes over them differs from the declared digest, the server
deletes the written file — afterwards no file exists at the target path —
and responds with an error carrying both digests. -/
theorem upload_corruption_rejected (sha256 : List Nat → String) (st : ServerState)
    (fn mode ts declared : String) (stream : List Nat) (filesize : Nat)
    (hfn : fn ≠ "") (hfs : filesize ≠ 0) (hdecl : declared ≠ "")
    (hlen : filesize ≤ stream.length)
    (hmis : sha256 (stream.take filesize) ≠ declared) :
    fsLookup
        (handle_upload sha256 st ⟨some fn, some filesize, some declared, some mode⟩
          stream ts).1.storage
        (check_file_exists st.storage fn mode).1 = none ∧
    (handle_upload sha256 st ⟨some fn, some filesize, some declared, some mode⟩ stream ts).2 =
      [{ status := "ready", filename := some (check_file_exists st.storage fn mode).1,
         is_duplicate := some (check_file_exists st.storage fn mode).2,
         handling_mode := some mode },
       { status := "error", message := some "File corruption detected",
         expected_hash := some declared,
         received_hash := some (sha256 (stream.take filesize)) }] := by
  rw [handle_upload_corruption sha256 st fn mode ts declared stream filesize hfn hfs hdecl
    hlen hmis]
  exact ⟨fsLookup_erase_self _ _, rfl⟩

/-- Witness for C2: declared digest `"x"`, computed digest `"d"`: the file is
gone and both digests are reported. -/
theorem upload_corruption_rejected_witness :
    (("a.txt" : String) ≠ "" ∧ (1 : Nat) ≠ 0 ∧ ("x" : String) ≠ "" ∧
      1 ≤ ([7] : List Nat).length ∧ (fun _ : List Nat => "d") (([7] : List Nat).take 1) ≠ "x") ∧
    (fsLookup
        (handle_upload (fun _ => "d") ⟨[], []⟩ ⟨some "a.txt", some 1, some "x", some "overwrite"⟩
          [7] "ts").1.storage
        (check_file_exists ([] : FS) "a.txt" "overwrite").1 = none ∧
     (handle_upload (fun _ => "d") ⟨[], []⟩ ⟨some "a.txt", some 1, some "x", some "overwrite"⟩
        [7] "ts").2 =
      [{ status := "ready", filename := some (check_file_exists ([] : FS) "a.txt" "overwrite").1,
         is_duplicate := some (check_file_exists ([] : FS) "a.txt" "overwrite").2,
         handling_mode := some "overwrite" },
       { status := "error", message := some "File corruption detected",
         expected_hash := some "x",
         received_hash := some ((fun _ : List Nat => "d") (([7] : List Nat).take 1)) }]) :=
  ⟨⟨by decide, by decide, by decide, by decide, by decide⟩,
    upload_corruption_rejected (fun _ => "d") ⟨[], []⟩ "a.txt" "overwrite" "ts" "x" [7] 1
      (by decide) (by decide) (by decide) (by decide) (by decide)⟩

/-! ### Claim C3 (corrected: the check only runs for positive offsets) -/

/-- C3 counterexample: for a stored zero-byte file, a download with
`resume_offset = 0 = filesize` is accepted — the response status is
`ready`, not an error — because the bounds check is guarded by
`if resume_offset > 0`.  This refutes the claim that *every* request with
`offset == filesize` receives an error response. -/
theorem download_offset_eq_filesize_accepted :
    (handle_download_request (fun _ => "d") [("a.txt", [])] ⟨"a.txt", 0⟩ true).1.map
        Response.status = ["ready"] ∧
    (⟨"a.txt", 0⟩ : DownloadRequest).resume_offset = ([] : List Nat).length :=
  ⟨rfl, rfl⟩

/-- C3 (amended): a resume offset is accepted when it is `0` or smaller than
the file size; every request with a *positive* offset `≥ filesize` receives
an error response and no file bytes are streamed.  (The code skips the bounds
check entirely for `offset = 0`, so `offset == filesize` is only rejected
when the offset is positive — equivalently, for files of positive size.) -/
theorem download_offset_validation (sha256 : List Nat → String) (storage : FS)
    (fn : String) (C : List Nat) (off : Nat) (rdy : Bool)
    (hex : fsLookup storage fn = some C) :
    (0 < off → C.length ≤ off →
      handle_download_request sha256 storage ⟨fn, off⟩ rdy =
        ([{ status := "error",
            message := some ("Invalid resume offset: " ++ decimal off) }], [])) ∧
    (¬ (0 < off ∧ C.length ≤ off) →
      (handle_download_request sha256 storage ⟨fn, off⟩ rdy).1 =
        [{ status := "ready", filesize := some C.length,
           hash := some (calculate_file_hash sha256 C),
           resuming_from := some off }]) := by
  constructor
  · intro h1 h2
    simp [handle_download_request, hex, h1, h2]
  · intro h
    simp only [handle_download_request, hex]
    rw [if_neg (by omega)]
    cases rdy <;> simp

/-- Witness for C3's amended theorem: offset 5 on a 2-byte file is rejected. -/
theorem download_offset_validation_witness :
    fsLookup [("a.txt", [5, 6])] "a.txt" = some [5, 6] ∧
    handle_download_request (fun _ => "d") [("a.txt", [5, 6])] ⟨"a.txt", 5⟩ true =
      ([{ status := "error", message := some ("Invalid resume offset: " ++ decimal 5) }], []) :=
  ⟨by decide,
    (download_offset_validation (fun _ => "d") [("a.txt", [5, 6])] "a.txt" [5, 6] 5 true
      (by decide)).1 (by decide) (by decide)⟩

/-! ### Claim C4 -/

/-- C4: for an accepted resume offset `o < S` on a stored file of `S` bytes,
the server streams exactly the file's bytes from position `o` to the end —
`S − o` bytes — so the previously-held `o`-byte prefix plus the streamed
tail reproduce the file; the ready response's digest is the digest of the
complete file, regardless of `o`. -/
theorem download_resume_correct (sha256 : List Nat → String) (storage : FS)
    (fn : String) (C : List Nat) (o : Nat)
    (hex : fsLookup storage fn = some C) (ho : o < C.length) :
    handle_download_request sha256 storage ⟨fn, o⟩ true =
      ([{ status := "ready", filesize := some C.length,
          hash := some (sha256 C), resuming_from := some o }], C.drop o) ∧
    (C.drop o).length = C.length - o ∧
    C.take o ++ C.drop o = C := by
  refine ⟨?_, List.length_drop o C, List.take_append_drop o C⟩
  have hno : ¬ (o > 0 ∧ C.length ≤ o) := by omega
  simp only [handle_download_request, hex]
  rw [if_neg hno]
  simp only [if_pos rfl, calculate_file_hash, readChunks_eq, sendBytes_eq]
  rw [List.take_of_length_le (le_of_eq (List.length_drop o C))]
  simp

/-- Witness for C4: resuming a 3-byte file at offset 1 streams its last two
bytes. -/
theorem download_resume_correct_witness :
    fsLookup [("a.txt", [1, 2, 3])] "a.txt" = some [1, 2, 3] ∧ 1 < ([1, 2, 3] : List Nat).length ∧
    handle_download_request (fun _ => "d") [("a.txt", [1, 2, 3])] ⟨"a.txt", 1⟩ true =
      ([{ status := "ready", filesize := some ([1, 2, 3] : List Nat).length,
          hash := some "d", resuming_from := some 1 }], ([1, 2, 3] : List Nat).drop 1) :=
  ⟨by decide, by decide,
    (download_resume_correct (fun _ => "d") [("a.txt", [1, 2, 3])] "a.txt" [1, 2, 3] 1
      (by decide) (by decide)).1⟩

/-! ### Claim C1 -/

/-- C1: round trip.  Uploading content `C` (declared size `|C|`, declared
digest `sha256 C`, any handling mode) succeeds, stores exactly `C` under the
resolved filename, and a subsequent download of that filename answers a
ready response whose digest is `sha256 C` and streams exactly `C`. -/
theorem upload_download_roundtrip (sha256 : List Nat → String) (st : ServerState)
    (fn mode ts : String) (C : List Nat)
    (hfn : fn ≠ "") (hC : C ≠ []) (hsha : sha256 C ≠ "") :
    (handle_upload sha256 st ⟨some fn, some C.length, some (sha256 C), some mode⟩ C ts).2 =
      [{ status := "ready", filename := some (check_file_exists st.storage fn mode).1,
         is_duplicate := some (check_file_exists st.storage fn mode).2,
         handling_mode := some mode },
       { status := "success",
         message := some ("File " ++ (check_file_exists st.storage fn mode).1 ++
           " uploaded successfully"),
         hash := some (sha256 C) }] ∧
    fsLookup
        (handle_upload sha256 st ⟨some fn, some C.length, some (sha256 C), some mode⟩
          C ts).1.storage
        (check_file_exists st.storage fn mode).1 = some C ∧
    handle_download_request sha256
        (handle_upload sha256 st ⟨some fn, some C.length, some (sha256 C), some mode⟩
          C ts).1.storage
        ⟨(check_file_exists st.storage fn mode).1, 0⟩ true =
      ([{ status := "ready", filesize := some C.length, hash := some (sha256 C),
          resuming_from := some 0 }], C) := by
  rw [handle_upload_success sha256 st fn mode ts C hfn hC hsha]
  refine ⟨rfl, fsLookup_insert_self _ _ _, ?_⟩
  have hlook : fsLookup
      (fsInsert (if (check_file_exists st.storage fn mode).2 ∧ mode = "versioning"
          then archive_existing_file st fn ts else st).storage
        (check_file_exists st.storage fn mode).1 C)
      (check_file_exists st.storage fn mode).1 = some C := fsLookup_insert_self _ _ _
  simp [handle_download_request, hlook, calculate_file_hash, readChunks_eq, sendBytes_eq,
    List.take_length]

/-- Witness for C1 at concrete content `[104, 105]`. -/
theorem upload_download_roundtrip_witness :
    (("a.txt" : String) ≠ "" ∧ ([104, 105] : List Nat) ≠ [] ∧
      (fun _ : List Nat => "d") [104, 105] ≠ "") ∧
    ((handle_upload (fun _ => "d") ⟨[], []⟩
        ⟨some "a.txt", some ([104, 105] : List Nat).length,
          some ((fun _ : List Nat => "d") [104, 105]), some "overwrite"⟩ [104, 105] "ts").2 =
      [{ status := "ready", filename := some (check_file_exists ([] : FS) "a.txt" "overwrite").1,
         is_duplicate := some (check_file_exists ([] : FS) "a.txt" "overwrite").2,
         handling_mode := some "overwrite" },
       { status := "success",
         message := some ("File " ++ (check_file_exists ([] : FS) "a.txt" "overwrite").1 ++
           " uploaded successfully"),
         hash := some ((fun _ : List Nat => "d") [104, 105]) }] ∧
     fsLookup
        (handle_upload (fun _ => "d") ⟨[], []⟩
          ⟨some "a.txt", some ([104, 105] : List Nat).length,
            some ((fun _ : List Nat => "d") [104, 105]), some "overwrite"⟩
          [104, 105] "ts").1.storage
        (check_file_exists ([] : FS) "a.txt" "overwrite").1 = some [104, 105] ∧
     handle_download_request (fun _ => "d")
        (handle_upload (fun _ => "d") ⟨[], []⟩
          ⟨some "a.txt", some ([104, 105] : List Nat).length,
            some ((fun _ : List Nat => "d") [104, 105]), some "overwrite"⟩
          [104, 105] "ts").1.storage
        ⟨(check_file_exists ([] : FS) "a.txt" "overwrite").1, 0⟩ true =
      ([{ status := "ready", filesize := some ([104, 105] : List Nat).length,
          hash := some ((fun _ : List Nat => "d") [104, 105]),
          resuming_from := some 0 }], [104, 105])) :=
  ⟨⟨by decide, by decide, by decide⟩,
    upload_download_roundtrip (fun _ => "d") ⟨[], []⟩ "a.txt" "overwrite" "ts" [104, 105]
      (by decide) (by decide) (by decide)⟩

/-! ### Claim C8 -/

/-- C8: in the per-connection request loop, an undecodable request yields an
`Invalid request format` error response and an unknown command an
`Invalid command` error response, in both cases with unchanged state and the
connection still open (the remaining events are processed as before); an
empty read, a read timeout, or a socket error ends the loop — no response is
sent, later events are not processed, and the connection is closed. -/
theorem request_loop_behaviour (sha256 : List Nat → String) (st : ServerState)
    (rest : List Incoming) (cmd : Option String) :
    handle_client sha256 st (.malformed :: rest) =
      ((handle_client sha256 st rest).1,
        { status := "error", message := some "Invalid request format" } ::
          (handle_client sha256 st rest).2) ∧
    handle_client sha256 st (.unknown cmd :: rest) =
      ((handle_client sha256 st rest).1,
        { status := "error", message := some "Invalid command" } ::
          (handle_client sha256 st rest).2) ∧
    handle_client sha256 st (.closed :: rest) = (st, []) ∧
    handle_client sha256 st (.timeout :: rest) = (st, []) ∧
    handle_client sha256 st (.sockError :: rest) = (st, []) :=
  ⟨rfl, rfl, rfl, rfl, rfl⟩

/-! ### Claim C5 -/

/-- Repeated uploads of the same filename under `rename`, each stream carrying
its declared bytes and digest.  Returns the final state and, in order, the
upload target `check_file_exists` chose for each upload. -/
def uploadRunRename (sha256 : List Nat → String) (fn ts : String) :
    ServerState → List (List Nat) → ServerState × List String
  | st, [] => (st, [])
  | st, c :: cs =>
    let target := (check_file_exists st.storage fn "rename").1
    let st' := (handle_upload sha256 st
      ⟨some fn, some c.length, some (sha256 c), some "rename"⟩ c ts).1
    let rest := uploadRunRename sha256 fn ts st' cs
    (rest.1, target :: rest.2)

theorem check_rename_eq {fs : FS} {fn : String} (h : fsLookup fs fn ≠ none) :
    check_file_exists fs fn "rename" =
      (vname (splitext fn).1 (splitext fn).2
        (renameCounter fs (splitext fn).1 (splitext fn).2), true) := by
  rw [check_file_exists, if_neg h, if_neg (by decide), if_pos rfl]

theorem handle_upload_rename_state (sha256 : List Nat → String) (st : ServerState)
    (fn ts : String) (c : List Nat)
    (hfn : fn ≠ "") (hc : c ≠ []) (hs : sha256 c ≠ "")
    (hex : fsLookup st.storage fn ≠ none) :
    (handle_upload sha256 st ⟨some fn, some c.length, some (sha256 c), some "rename"⟩ c ts).1 =
      ⟨fsInsert st.storage
        (vname (splitext fn).1 (splitext fn).2
          (renameCounter st.storage (splitext fn).1 (splitext fn).2)) c, st.versions⟩ := by
  rw [handle_upload_success sha256 st fn "rename" ts c hfn hc hs, check_rename_eq hex]
  simp

theorem fsLookup_insert_ne_none {fs : FS} {k k' : String} {v : List Nat}
    (h : fsLookup fs k' ≠ none) : fsLookup (fsInsert fs k v) k' ≠ none := by
  rw [fsLookup_insert]
  split_ifs <;> simp_all

/-- Invariant-carrying induction for the rename run: if the original name is
present and every candidate below `m` is taken, the chosen counters are a
strictly increasing sequence starting at or above `m`. -/
theorem uploadRunRename_aux (sha256 : List Nat → String) (fn ts : String) (hfn : fn ≠ "") :
    ∀ (contents : List (List Nat)) (st : ServerState) (m : Nat),
      fsLookup st.storage fn ≠ none →
      (∀ j, 2 ≤ j → j < m →
        fsLookup st.storage (vname (splitext fn).1 (splitext fn).2 j) ≠ none) →
      (∀ c ∈ contents, c ≠ [] ∧ sha256 c ≠ "") →
      ∃ ks : List Nat,
        (uploadRunRename sha256 fn ts st contents).2 =
          ks.map (vname (splitext fn).1 (splitext fn).2) ∧
        ks.Chain' (· < ·) ∧ (∀ k ∈ ks, m ≤ k ∧ 2 ≤ k) := by
  intro contents
  induction contents with
  | nil =>
    intro st m hex hocc hc
    exact ⟨[], rfl, List.chain'_nil, by simp⟩
  | cons c cs ih =>
    intro st m hex hocc hc
    obtain ⟨hc1, hc2⟩ := hc c (List.mem_cons_self _ _)
    have hccs : ∀ x ∈ cs, x ≠ [] ∧ sha256 x ≠ "" := fun x hx =>
      hc x (List.mem_cons_of_mem _ hx)
    set name := (splitext fn).1
    set ext := (splitext fn).2
    set k0 := renameCounter st.storage name ext with hk0def
    obtain ⟨hk02, hk0free, hk0min⟩ := renameCounter_spec st.storage name ext
    have hk0m : m ≤ k0 := le_renameCounter hocc
    have hfrest : fn ≠ vname name ext k0 := by
      intro hcontra
      rw [hcontra] at hex
      exact hex hk0free
    have hst' : (handle_upload sha256 st
        ⟨some fn, some c.length, some (sha256 c), some "rename"⟩ c ts).1 =
        ⟨fsInsert st.storage (vname name ext k0) c, st.versions⟩ :=
      handle_upload_rename_state sha256 st fn ts c hfn hc1 hc2 hex
    have hex' : fsLookup (fsInsert st.storage (vname name ext k0) c) fn ≠ none :=
      fsLookup_insert_ne_none hex
    have hocc' : ∀ j, 2 ≤ j → j < k0 + 1 →
        fsLookup (fsInsert st.storage (vname name ext k0) c) (vname name ext j) ≠ none := by
      intro j hj2 hjlt
      by_cases hj : j = k0
      · subst hj
        rw [fsLookup_insert_self]
        simp
      · exact fsLookup_insert_ne_none (hk0min j hj2 (by omega))
    obtain ⟨ks, hmap, hchain, hbound⟩ :=
      ih ⟨fsInsert st.storage (vname name ext k0) c, st.versions⟩ (k0 + 1) hex' hocc' hccs
    refine ⟨k0 :: ks, ?_, ?_, ?_⟩
    · rw [uploadRunRename]
      simp only [List.map_cons]
      rw [check_rename_eq hex]
      rw [hst']
      rw [← hk0def]
      exact congrArg (vname name ext k0 :: ·) hmap
    · cases ks with
      | nil => exact List.chain'_singleton _
      | cons k1 ks' =>
        refine List.Chain'.cons ?_ hchain
        have := (hbound k1 (List.mem_cons_self _ _)).1
        omega
    · intro k hk
      rcases List.mem_cons.mp hk with h | h
      · omega
      · have := hbound k h
        omega

theorem uploadRunRename_length (sha256 : List Nat → String) (fn ts : String) :
    ∀ (cs : List (List Nat)) (st : ServerState),
      (uploadRunRename sha256 fn ts st cs).2.length = cs.length := by
  intro cs
  induction cs with
  | nil => intro st; rfl
  | cons c cs ih =>
    intro st
    rw [uploadRunRename]
    simp [ih]

/-- C5: under `rename`, duplicate resolution returns the first candidate
`name_v2.ext, name_v3.ext, …` whose path does not exist (first conjunct);
that name becomes the upload target and the original file's entry is
untouched (second conjunct); and K successful uploads of the same filename
produce K distinct target names whose version counters strictly increase
(third conjunct). -/
theorem rename_mode_correct (sha256 : List Nat → String) (fn ts : String) :
    (∀ fs : FS, fsLookup fs fn ≠ none →
      check_file_exists fs fn "rename" =
        (vname (splitext fn).1 (splitext fn).2
          (renameCounter fs (splitext fn).1 (splitext fn).2), true) ∧
      2 ≤ renameCounter fs (splitext fn).1 (splitext fn).2 ∧
      fsLookup fs (vname (splitext fn).1 (splitext fn).2
        (renameCounter fs (splitext fn).1 (splitext fn).2)) = none ∧
      (∀ j, 2 ≤ j → j < renameCounter fs (splitext fn).1 (splitext fn).2 →
        fsLookup fs (vname (splitext fn).1 (splitext fn).2 j) ≠ none)) ∧
    (∀ (st : ServerState) (c : List Nat), fn ≠ "" → c ≠ [] → sha256 c ≠ "" →
      fsLookup st.storage fn ≠ none →
      (handle_upload sha256 st ⟨some fn, some c.length, some (sha256 c), some "rename"⟩
          c ts).1 =
        ⟨fsInsert st.storage
          (vname (splitext fn).1 (splitext fn).2
            (renameCounter st.storage (splitext fn).1 (splitext fn).2)) c, st.versions⟩ ∧
      fsLookup
          (handle_upload sha256 st ⟨some fn, some c.length, some (sha256 c), some "rename"⟩
            c ts).1.storage fn = fsLookup st.storage fn) ∧
    (∀ (st : ServerState) (contents : List (List Nat)), fn ≠ "" →
      fsLookup st.storage fn ≠ none →
      (∀ c ∈ contents, c ≠ [] ∧ sha256 c ≠ "") →
      ∃ ks : List Nat,
        (uploadRunRename sha256 fn ts st contents).2 =
          ks.map (vname (splitext fn).1 (splitext fn).2) ∧
        ks.Chain' (· < ·) ∧
        (uploadRunRename sha256 fn ts st contents).2.Nodup ∧
        (uploadRunRename sha256 fn ts st contents).2.length = contents.length) := by
  refine ⟨?_, ?_, ?_⟩
  · intro fs hex
    obtain ⟨h2, hfree, hmin⟩ := renameCounter_spec fs (splitext fn).1 (splitext fn).2
    exact ⟨check_rename_eq hex, h2, hfree, hmin⟩
  · intro st c hfn hc hs hex
    have hst := handle_upload_rename_state sha256 st fn ts c hfn hc hs hex
    refine ⟨hst, ?_⟩
    rw [hst]
    show fsLookup (fsInsert st.storage _ c) fn = fsLookup st.storage fn
    rw [fsLookup_insert]
    rw [if_neg]
    intro hcontra
    obtain ⟨-, hfree, -⟩ := renameCounter_spec st.storage (splitext fn).1 (splitext fn).2
    rw [hcontra] at hex
    exact hex hfree
  · intro st contents hfn hex hc
    obtain ⟨ks, hmap, hchain, hbound⟩ :=
      uploadRunRename_aux sha256 fn ts hfn contents st 0 hex (by omega) hc
    refine ⟨ks, hmap, hchain, ?_, ?_⟩
    · rw [hmap]
      refine List.Nodup.map (fun a b h => vname_injective (splitext fn).1 (splitext fn).2 h) ?_
      exact (List.chain'_iff_pairwise.mp hchain).imp Nat.ne_of_lt
    · exact uploadRunRename_length sha256 fn ts contents st

/-- Witness for C5: two rename-mode uploads of `a.txt` over an existing
`a.txt` produce strictly increasing, duplicate-free target names. -/
theorem rename_mode_correct_witness :
    (fsLookup [("a.txt", [1])] "a.txt" ≠ none ∧ ("a.txt" : String) ≠ "" ∧
      (∀ c ∈ ([[2], [3]] : List (List Nat)), c ≠ [] ∧ (fun _ : List Nat => "d") c ≠ "")) ∧
    (∃ ks : List Nat,
      (uploadRunRename (fun _ => "d") "a.txt" "ts" ⟨[("a.txt", [1])], []⟩ [[2], [3]]).2 =
        ks.map (vname (splitext "a.txt").1 (splitext "a.txt").2) ∧
      ks.Chain' (· < ·) ∧
      (uploadRunRename (fun _ => "d") "a.txt" "ts" ⟨[("a.txt", [1])], []⟩ [[2], [3]]).2.Nodup ∧
      (uploadRunRename (fun _ => "d") "a.txt" "ts" ⟨[("a.txt", [1])], []⟩ [[2], [3]]).2.length =
        ([[2], [3]] : List (List Nat)).length) :=
  ⟨⟨by decide, by decide, by decide⟩,
    (rename_mode_correct (fun _ => "d") "a.txt" "ts").2.2 ⟨[("a.txt", [1])], []⟩ [[2], [3]]
      (by decide) (by decide) (by decide)⟩

/-! ### Claim C6 -/

/-- The version-history path `archive_existing_file` writes to: subdirectory
named after the base name, file name suffixed with the timestamp. -/
def vpath (name ext ts : String) : String := name ++ "/" ++ (name ++ "_" ++ ts ++ ext)

/-- Repeated uploads of the same filename under `versioning`; each upload
carries its content and its wall-clock timestamp. -/
def uploadRunVersioning (sha256 : List Nat → String) (fn : String) :
    ServerState → List (List Nat × String) → ServerState
  | st, [] => st
  | st, u :: rest =>
    uploadRunVersioning sha256 fn
      (handle_upload sha256 st
        ⟨some fn, some u.1.length, some (sha256 u.1), some "versioning"⟩ u.1 u.2).1 rest

theorem vpath_injective (name ext : String) : Function.Injective (vpath name ext) := by
  intro t1 t2 h
  have hd := congrArg String.data h
  simp only [vpath, String.data_append, List.append_assoc] at hd
  have h1 := List.append_cancel_left hd
  have h2 := List.append_cancel_left h1
  have h3 := List.append_cancel_left h2
  have h4 := List.append_cancel_left h3
  have h5 := List.append_cancel_right h4
  cases t1; cases t2; exact congrArg String.mk h5

theorem handle_upload_versioning_first (sha256 : List Nat → String) (st : ServerState)
    (fn ts : String) (c : List Nat)
    (hfn : fn ≠ "") (hc : c ≠ []) (hs : sha256 c ≠ "")
    (hnone : fsLookup st.storage fn = none) :
    (handle_upload sha256 st
        ⟨some fn, some c.length, some (sha256 c), some "versioning"⟩ c ts).1 =
      ⟨fsInsert st.storage fn c, st.versions⟩ := by
  have hcfe : check_file_exists st.storage fn "versioning" = (fn, false) := by
    rw [check_file_exists, if_pos hnone]
  rw [handle_upload_success sha256 st fn "versioning" ts c hfn hc hs, hcfe]
  simp

theorem handle_upload_versioning_dup (sha256 : List Nat → String) (st : ServerState)
    (fn ts : String) (c old : List Nat)
    (hfn : fn ≠ "") (hc : c ≠ []) (hs : sha256 c ≠ "")
    (hsome : fsLookup st.storage fn = some old) :
    (handle_upload sha256 st
        ⟨some fn, some c.length, some (sha256 c), some "versioning"⟩ c ts).1 =
      ⟨fsInsert st.storage fn c,
       fsInsert st.versions (vpath (splitext fn).1 (splitext fn).2 ts) old⟩ := by
  have hcfe : check_file_exists st.storage fn "versioning" = (fn, true) := by
    rw [check_file_exists, if_neg (by simp [hsome]), if_neg (by decide), if_neg (by decide),
      if_pos rfl]
  rw [handle_upload_success sha256 st fn "versioning" ts c hfn hc hs, hcfe]
  simp [archive_of_lookup_some ts hsome, vpath]

theorem getLast_fst_eq_getLastD :
    ∀ (rest : List (List Nat × String)) (c : List Nat) (ts : String)
      (h : ((c, ts) :: rest : List (List Nat × String)) ≠ []),
      (((c, ts) :: rest).getLast h).1 = (rest.map Prod.fst).getLastD c := by
  intro rest
  induction rest with
  | nil => intro c ts h; rfl
  | cons u rest ih =>
    intro c ts h
    obtain ⟨cu, tu⟩ := u
    rw [List.getLast_cons (List.cons_ne_nil _ _), ih cu tu (List.cons_ne_nil _ _),
      List.map_cons, List.getLastD_cons]

theorem strStartsWith_vpath (name ext ts : String) :
    strStartsWith (vpath name ext ts) (name ++ "/") = true :=
  strStartsWith_append (name ++ "/") (name ++ "_" ++ ts ++ ext)

/-- Invariant-carrying induction for the versioning run: with an active file
present and every upcoming timestamped archive path unused, each upload adds
exactly one archived copy and installs its content as the active file. -/
theorem uploadRunVersioning_aux (sha256 : List Nat → String) (fn : String) (hfn : fn ≠ "") :
    ∀ (ups : List (List Nat × String)) (st : ServerState) (prev : List Nat),
      fsLookup st.storage fn = some prev →
      (∀ u ∈ ups, u.1 ≠ [] ∧ sha256 u.1 ≠ "") →
      (ups.map Prod.snd).Nodup →
      (∀ ts ∈ ups.map Prod.snd,
        fsLookup st.versions (vpath (splitext fn).1 (splitext fn).2 ts) = none) →
      versionCount (uploadRunVersioning sha256 fn st ups).versions (splitext fn).1 =
        versionCount st.versions (splitext fn).1 + ups.length ∧
      fsLookup (uploadRunVersioning sha256 fn st ups).storage fn =
        some ((ups.map Prod.fst).getLastD prev) := by
  intro ups
  induction ups with
  | nil =>
    intro st prev hprev hu hnd hfresh
    exact ⟨by simp [uploadRunVersioning], by simpa [uploadRunVersioning] using hprev⟩
  | cons u rest ih =>
    intro st prev hprev hu hnd hfresh
    obtain ⟨c, ts⟩ := u
    obtain ⟨hc1, hc2⟩ := hu (c, ts) (List.mem_cons_self _ _)
    have hstep := handle_upload_versioning_dup sha256 st fn ts c prev hfn hc1 hc2 hprev
    rw [uploadRunVersioning, hstep]
    have htsfresh : fsLookup st.versions (vpath (splitext fn).1 (splitext fn).2 ts) = none :=
      hfresh ts (by simp)
    have hnd' : (rest.map Prod.snd).Nodup := (List.nodup_cons.mp (by simpa using hnd)).2
    have htsnot : ts ∉ rest.map Prod.snd := (List.nodup_cons.mp (by simpa using hnd)).1
    have hprev' : fsLookup (fsInsert st.storage fn c) fn = some c := fsLookup_insert_self _ _ _
    have hfresh' : ∀ ts' ∈ rest.map Prod.snd,
        fsLookup (fsInsert st.versions (vpath (splitext fn).1 (splitext fn).2 ts) prev)
          (vpath (splitext fn).1 (splitext fn).2 ts') = none := by
      intro ts' hts'
      rw [fsLookup_insert, if_neg]
      · exact hfresh ts' (by simp [hts'])
      · intro hcontra
        exact htsnot (by rw [← vpath_injective (splitext fn).1 (splitext fn).2 hcontra]; exact hts')
    obtain ⟨hcount, hlast⟩ := ih
      ⟨fsInsert st.storage fn c,
        fsInsert st.versions (vpath (splitext fn).1 (splitext fn).2 ts) prev⟩ c hprev'
      (fun x hx => hu x (List.mem_cons_of_mem _ hx)) hnd' hfresh'
    constructor
    · rw [hcount,
        versionCount_insert_fresh htsfresh (strStartsWith_vpath (splitext fn).1 (splitext fn).2 ts)]
      simp
      omega
    · rw [hlast, List.map_cons, List.getLastD_cons]

/-- C6: under `versioning`: (a) archiving a non-existent source is a no-op;
(b) an upload over existing content first archives the *prior* active content
into the per-base-name version subdirectory (the snapshot is of the content
as it was before the overwrite — archiving completes strictly before the
active file is replaced) and then installs the new content as the active
file; (c) K successful uploads of the same filename, starting from a state
with no active file and an empty version subdirectory and using pairwise
distinct timestamps, leave exactly K − 1 archived copies plus one active
file holding the last uploaded content. -/
theorem versioning_mode_correct (sha256 : List Nat → String) (fn : String) :
    (∀ (st : ServerState) (f ts : String), fsLookup st.storage f = none →
      archive_existing_file st f ts = st) ∧
    (∀ (st : ServerState) (c old : List Nat) (ts : String),
      fn ≠ "" → c ≠ [] → sha256 c ≠ "" → fsLookup st.storage fn = some old →
      (handle_upload sha256 st
          ⟨some fn, some c.length, some (sha256 c), some "versioning"⟩ c ts).1 =
        ⟨fsInsert st.storage fn c,
         fsInsert st.versions (vpath (splitext fn).1 (splitext fn).2 ts) old⟩ ∧
      fsLookup (handle_upload sha256 st
          ⟨some fn, some c.length, some (sha256 c), some "versioning"⟩ c ts).1.versions
        (vpath (splitext fn).1 (splitext fn).2 ts) = some old ∧
      fsLookup (handle_upload sha256 st
          ⟨some fn, some c.length, some (sha256 c), some "versioning"⟩ c ts).1.storage
        fn = some c) ∧
    (∀ (st : ServerState) (ups : List (List Nat × String)),
      fn ≠ "" → fsLookup st.storage fn = none →
      versionCount st.versions (splitext fn).1 = 0 →
      (∀ u ∈ ups, u.1 ≠ [] ∧ sha256 u.1 ≠ "") →
      (ups.map Prod.snd).Nodup →
      versionCount (uploadRunVersioning sha256 fn st ups).versions (splitext fn).1 =
        ups.length - 1 ∧
      ∀ h : ups ≠ [],
        fsLookup (uploadRunVersioning sha256 fn st ups).storage fn =
          some ((ups.getLast h).1)) := by
  refine ⟨?_, ?_, ?_⟩
  · intro st f ts h
    exact archive_of_lookup_none ts h
  · intro st c old ts hfn hc hs hsome
    have hdup := handle_upload_versioning_dup sha256 st fn ts c old hfn hc hs hsome
    refine ⟨hdup, ?_, ?_⟩
    · rw [hdup]
      exact fsLookup_insert_self _ _ _
    · rw [hdup]
      exact fsLookup_insert_self _ _ _
  · intro st ups hfn hnone hcount0 hu hnd
    cases ups with
    | nil =>
      refine ⟨?_, ?_⟩
      · rw [uploadRunVersioning, hcount0]
        rfl
      · intro h
        exact absurd rfl h
    | cons u rest =>
      obtain ⟨c, ts⟩ := u
      obtain ⟨hc1, hc2⟩ := hu (c, ts) (List.mem_cons_self _ _)
      have hstep := handle_upload_versioning_first sha256 st fn ts c hfn hc1 hc2 hnone
      have hfresh : ∀ ts' ∈ rest.map Prod.snd,
          fsLookup st.versions (vpath (splitext fn).1 (splitext fn).2 ts') = none :=
        fun ts' _ =>
          versionCount_zero_lookup hcount0 ((splitext fn).1 ++ "_" ++ ts' ++ (splitext fn).2)
      obtain ⟨hcnt, hlast⟩ := uploadRunVersioning_aux sha256 fn hfn rest
        ⟨fsInsert st.storage fn c, st.versions⟩ c (fsLookup_insert_self _ _ _)
        (fun x hx => hu x (List.mem_cons_of_mem _ hx))
        ((List.nodup_cons.mp (by simpa using hnd)).2) hfresh
      rw [uploadRunVersioning, hstep]
      refine ⟨?_, ?_⟩
      · rw [hcnt, hcount0]
        simp
      · intro h
        rw [hlast, getLast_fst_eq_getLastD rest c ts h]

/-- Witness for C6: two versioning uploads of `a.txt` from an empty store
leave one archived copy and the second content active. -/
theorem versioning_mode_correct_witness :
    (("a.txt" : String) ≠ "" ∧ fsLookup ([] : FS) "a.txt" = none ∧
      versionCount ([] : FS) (splitext "a.txt").1 = 0 ∧
      (∀ u ∈ ([([1], "t1"), ([2], "t2")] : List (List Nat × String)),
        u.1 ≠ [] ∧ (fun _ : List Nat => "d") u.1 ≠ "") ∧
      (([([1], "t1"), ([2], "t2")] : List (List Nat × String)).map Prod.snd).Nodup) ∧
    (versionCount
        (uploadRunVersioning (fun _ => "d") "a.txt" ⟨[], []⟩
          [([1], "t1"), ([2], "t2")]).versions (splitext "a.txt").1 =
      ([([1], "t1"), ([2], "t2")] : List (List Nat × String)).length - 1 ∧
     ∀ h : ([([1], "t1"), ([2], "t2")] : List (List Nat × String)) ≠ [],
       fsLookup
          (uploadRunVersioning (fun _ => "d") "a.txt" ⟨[], []⟩
            [([1], "t1"), ([2], "t2")]).storage "a.txt" =
        some ((([([1], "t1"), ([2], "t2")] : List (List Nat × String)).getLast h).1)) :=
  ⟨⟨by decide, by decide, by decide, by decide, by decide⟩,
    (versioning_mode_correct (fun _ => "d") "a.txt").2.2 ⟨[], []⟩ [([1], "t1"), ([2], "t2")]
      (by decide) (by decide) (by decide) (by decide) (by decide)⟩

/-! ### Claim C7: the client's exception-safety

`FileClient.download_file` is embedded in an `Except`-monad style: an
`Except.error` value models a Python exception propagating out of
`download_file` to its caller; `Except.ok b` models `return b`.  Socket
primitives draw their outcomes from per-primitive scripts in a `ClientEnv`
(one stream per kind of socket interaction, consumed head first); an
exhausted stream yields a conservative default, which the runs of interest
never reach. -/

/-- Outcome of one iteration of `send_request`'s try block (serialize, send,
receive, parse): a parsed response (`parsed none` = undecodable JSON, which
the code turns into `return None`), an empty read (raises `ConnectionError`,
recoverable), a `socket.timeout` (recoverable), a `ConnectionError`
(recoverable), or any other exception (`return None`). -/
inductive AttemptRes where
  | parsed (r : Option Response)
  | empty
  | timeout
  | connErr
  | other
  deriving DecidableEq, Repr

/-- Outcome of a `sendall` of the `{'status': 'ready'}` acknowledgment. -/
inductive AckRes where
  | ok
  | timeout
  | err
  deriving DecidableEq, Repr

/-- Outcome of one `recv` inside the download receive loop: delivered bytes
(`data []` = peer closed the connection), a `socket.timeout`, or a
`socket.error`. -/
inductive ChunkRes where
  | data (bytes : List Nat)
  | timeout
  | sockErr
  deriving DecidableEq, Repr

/-- The scripted socket behaviour a client run observes. -/
structure ClientEnv where
  attempts : List AttemptRes
  connects : List Bool
  ackSends : List AckRes
  chunks : List ChunkRes
  deriving DecidableEq, Repr

/-- Client-side connection state: whether a socket object is present, plus
the remaining scripted behaviour. -/
structure ClientState where
  connected : Bool
  env : ClientEnv
  deriving DecidableEq, Repr

/-- One `send_request` try-iteration outcome. -/
def popAttempt (cs : ClientState) : AttemptRes × ClientState :=
  match cs.env.attempts with
  | [] => (.other, cs)
  | a :: rest => (a, { cs with env := { cs.env with attempts := rest } })

/-- `FileClient.connect`: every failure kind returns `False`; on success the
socket is (re)established. -/
def connect (cs : ClientState) : Bool × ClientState :=
  match cs.env.connects with
  | [] => (false, { cs with connected := false })
  | b :: rest => (b, { connected := b, env := { cs.env with connects := rest } })

/-- One readiness-acknowledgment `sendall` outcome. -/
def popAck (cs : ClientState) : AckRes × ClientState :=
  match cs.env.ackSends with
  | [] => (.ok, cs)
  | a :: rest => (a, { cs with env := { cs.env with ackSends := rest } })

/-- One download-loop `recv` outcome. -/
def popChunk (cs : ClientState) : ChunkRes × ClientState :=
  match cs.env.chunks with
  | [] => (.timeout, cs)
  | c :: rest => (c, { cs with env := { cs.env with chunks := rest } })

/-- The retry loop inside `FileClient.send_request` (`retries = 2`,
`retry_count` starting at 0; here the argument counts the retries still
available, so the loop runs at most three attempts): recoverable errors
retry until the bound is exhausted, then close, attempt one reconnect and
give up with `None`; undecodable responses and unexpected exceptions give
`None` immediately. -/
def sendRequestLoop : ClientState → Nat → Option Response × ClientState
  | cs, 0 =>
    let a := popAttempt cs
    match a.1 with
    | .parsed r => (r, a.2)
    | .other => (none, a.2)
    | _ =>
      let closed : ClientState := { a.2 with connected := false }
      (none, (connect closed).2)
  | cs, l + 1 =>
    let a := popAttempt cs
    match a.1 with
    | .parsed r => (r, a.2)
    | .other => (none, a.2)
    | _ => sendRequestLoop a.2 l

/-- `FileClient.send_request`: `None` when not connected, else the retry
loop with two retries available. -/
def send_request (cs : ClientState) : Option Response × ClientState :=
  if !cs.connected then (none, cs) else sendRequestLoop cs 2

/-- `FileClient.reconnect_and_resume_download`: close, reconnect, re-issue
the `DOWNLOAD` request with the current offset, and send the readiness
acknowledgment.  Its own acknowledgment `sendall` (client.py line 508) can
raise, but every call site sits inside `download_file`'s protected region. -/
def reconnect_and_resume (cs : ClientState) : Except String Bool × ClientState :=
  let closed : ClientState := { cs with connected := false }
  let c := connect closed
  if !c.1 then (.ok false, c.2)
  else
    let r := send_request c.2
    match r.1 with
    | none => (.ok false, r.2)
    | some resp =>
      if resp.status ≠ "ready" then (.ok false, r.2)
      else
        let a := popAck r.2
        match a.1 with
        | .ok => (.ok true, a.2)
        | .timeout => (.error "socket.timeout in reconnect_and_resume sendall", a.2)
        | .err => (.error "socket.error in reconnect_and_resume sendall", a.2)

/-- The protected section of `FileClient.download_file` (client.py lines
388–460): the receive loop, the resume-on-timeout path, and the final hash
verification, all inside a `try` whose `except` converts any exception into
`return False`.  `fuel` bounds the number of loop iterations (the Python
loop can in principle spin forever on repeated timeout/resume cycles;
every run considered here consumes one scripted event per iteration and
terminates long before the fuel does). -/
def downloadBody (sha256 : List Nat → String) (cs : ClientState)
    (filesize : Nat) (expected : String) (received : List Nat) :
    Nat → Except String Bool × ClientState
  | 0 => (.ok false, cs)
  | fuel + 1 =>
    if received.length < filesize then
      let c := popChunk cs
      match c.1 with
      | .data [] => (.ok false, c.2)
      | .data bytes => downloadBody sha256 c.2 filesize expected (received ++ bytes) fuel
      | .sockErr => (.ok false, c.2)
      | .timeout =>
        let r := reconnect_and_resume c.2
        match r.1 with
        | .ok true => downloadBody sha256 r.2 filesize expected received fuel
        | _ => (.ok false, r.2)
    else
      if sha256 received = expected then (.ok true, cs) else (.ok false, cs)

/-- `FileClient.download_file`, with an `Except.error` result modelling a
Python exception escaping to the caller.  The readiness acknowledgment
`self.socket.sendall(ready_msg)` (client.py line 380) sits between the
metadata validation and the protected receive section, outside every
`try` block of the function: a socket fault exactly there propagates. -/
def download_file (sha256 : List Nat → String) (cs : ClientState) (fuel : Nat) :
    Except String Bool × ClientState :=
  let r := send_request cs
  match r.1 with
  | none => (.ok false, r.2)
  | some resp =>
    if resp.status ≠ "ready" then (.ok false, r.2)
    else if !(truthyNat resp.filesize && truthyStr resp.hash) then (.ok false, r.2)
    else
      let a := popAck r.2
      match a.1 with
      | .timeout => (.error "socket.timeout raised by sendall(ready_msg)", a.2)
      | .err => (.error "socket.error raised by sendall(ready_msg)", a.2)
      | .ok => downloadBody sha256 a.2 (resp.filesize.getD 0) (resp.hash.getD "") [] fuel

/-- Everything inside `download_file`'s protected region really is converted
to a boolean: the receive loop never lets an exception escape. -/
theorem downloadBody_no_raise (sha256 : List Nat → String) :
    ∀ (fuel : Nat) (cs : ClientState) (filesize : Nat) (expected : String)
      (received : List Nat) (msg : String),
      (downloadBody sha256 cs filesize expected received fuel).1 ≠ .error msg := by
  intro fuel
  induction fuel with
  | zero => intro cs filesize expected received msg; simp [downloadBody]
  | succ fuel ih =>
    intro cs filesize expected received msg
    rw [downloadBody]
    split
    · rcases hch : (popChunk cs).1 with bytes | _ | _
      · cases bytes with
        | nil => simp [hch]
        | cons b bs => simp [hch]; exact ih _ _ _ _ _
      · rcases hr : (reconnect_and_resume (popChunk cs).2).1 with e | b
        · simp [hch, hr]
        · cases b with
          | true => simp [hch, hr]; exact ih _ _ _ _ _
          | false => simp [hch, hr]
      · simp [hch]
    · split <;> simp

/-- C7 (code bug): the claim that no top-level client operation lets an
exception propagate fails in `download_file`.  With the server answering a
well-formed ready response (`filesize = 1`, `hash = "h"`) and the connection
faulting exactly at the readiness acknowledgment
`self.socket.sendall(ready_msg)` — the one socket operation of the function
outside every `try` block — the `socket.timeout` escapes to the caller
instead of producing the documented boolean result.  (Everything inside the
protected region does produce a boolean: `downloadBody_no_raise`.) -/
theorem download_ack_send_raises :
    (download_file (fun _ => "d")
      ⟨true, ⟨[.parsed (some { status := "ready", filesize := some 1, hash := some "h" })],
        [], [.timeout], []⟩⟩ 5).1 =
      Except.error "socket.timeout raised by sendall(ready_msg)" := rfl

end FileTransfer
